import Mathlib

/-!
Shallow embedding of the Apollo synthetic-data generator core:
the weighted-choice parser and sampler (src/apollo/generators/weighted.py),
the binary generator (src/apollo-cli/generators/binary.py), and the CSV /
JSON-Lines serializers (src/apollo/utils/output.py).

Modelling conventions:
* Python strings are `List Char`; Python floats are exact rationals `ℚ`
  (every comparison the claims touch is either exactly representable or
  insensitive to double rounding);
* the process-global random source is made explicit: each `random.random()`
  call consumes one value from a supplied list of draws;
* raising `ValueError` is modelled by `Except ParseErr`;
* the filesystem is modelled by the optional content of the target path.
-/

namespace Apollo

/-- Labels and raw configuration text are modelled as lists of characters. -/
abbrev Label := List Char

/-- Python `str.split(sep)` for a one-character separator, no maxsplit:
`"".split(sep)` is `[""]`, and `n` separators yield `n + 1` tokens. -/
def splitOnChar (sep : Char) : List Char → List (List Char)
  | [] => [[]]
  | c :: cs =>
    match splitOnChar sep cs with
    | [] => [[]]
    | t :: ts => if c = sep then [] :: t :: ts else (c :: t) :: ts

/-- ASCII decimal digit test, as used by Python float literals. -/
def isDigit (c : Char) : Bool := decide ('0' ≤ c) && decide (c ≤ '9')

/-- Value of a string of decimal digits, most significant first. -/
def digitsVal (ds : List Char) : ℕ :=
  ds.foldl (fun a c => 10 * a + (c.toNat - 48)) 0

/-- The characters Python treats as whitespace (`Py_UNICODE_ISSPACE`):
code points the interpreter strips or normalizes around a `float()`
literal. -/
def isPySpace (c : Char) : Bool :=
  ([9, 10, 11, 12, 13, 28, 29, 30, 31, 32, 0x85, 0xa0, 0x1680,
    0x2000, 0x2001, 0x2002, 0x2003, 0x2004, 0x2005, 0x2006, 0x2007, 0x2008,
    0x2009, 0x200a, 0x2028, 0x2029, 0x202f, 0x205f, 0x3000] : List ℕ).contains c.toNat

/-- Code-point bases of the Unicode decimal-digit blocks, as recorded in
the interpreter's Unicode database: each block is ten consecutive code
points carrying decimal values 0-9.  This is the table behind
`Py_UNICODE_TODECIMAL`, which `float()` consults for non-ASCII digits. -/
def decimalDigitBases : List ℕ :=
  [48, 0x660, 0x6f0, 0x7c0, 0x966, 0x9e6, 0xa66, 0xae6, 0xb66, 0xbe6, 0xc66,
   0xce6, 0xd66, 0xde6, 0xe50, 0xed0, 0xf20, 0x1040, 0x1090, 0x17e0, 0x1810,
   0x1946, 0x19d0, 0x1a80, 0x1a90, 0x1b50, 0x1bb0, 0x1c40, 0x1c50, 0xa620,
   0xa8d0, 0xa900, 0xa9d0, 0xa9f0, 0xaa50, 0xabf0, 0xff10, 0x104a0, 0x10d30,
   0x11066, 0x110f0, 0x11136, 0x111d0, 0x112f0, 0x11450, 0x114d0, 0x11650,
   0x116c0, 0x11730, 0x118e0, 0x11950, 0x11c50, 0x11d50, 0x11da0, 0x16a60,
   0x16ac0, 0x16b50, 0x1d7ce, 0x1d7d8, 0x1d7e2, 0x1d7ec, 0x1d7f6, 0x1e140,
   0x1e2f0, 0x1e950, 0x1fbf0]

/-- Decimal value of a Unicode decimal digit (`Py_UNICODE_TODECIMAL`). -/
def uniDigit (c : Char) : Option ℕ :=
  match decimalDigitBases.find? (fun b => decide (b ≤ c.toNat) && decide (c.toNat ≤ b + 9)) with
  | some b => some (c.toNat - b)
  | none => none

/-- CPython's `_PyUnicode_TransformDecimalAndSpaceToASCII`, which `float()`
applies to its argument before parsing: any Unicode whitespace becomes a
plain space, any Unicode decimal digit becomes its ASCII digit, other
ASCII characters pass through, and any other non-ASCII character becomes
`?`, which makes the subsequent ASCII parse fail. -/
def toAsciiDigits (c : Char) : Char :=
  if isPySpace c then ' '
  else
    match uniDigit c with
    | some d => Char.ofNat (48 + d)
    | none => if c.toNat < 128 then c else '?'

/-- Greedy scan of one PEP 515 digit group `digit (["_"] digit)*`: returns
the digits with the grouping underscores removed, and the rest of the
input.  An underscore not sitting between two digits is left unconsumed
and later fails the parse, mirroring CPython's rule that a `_` in a
float literal must be immediately preceded and followed by a digit. -/
def digitGroup : List Char → List Char × List Char
  | [] => ([], [])
  | c :: cs =>
    if isDigit c then
      match cs with
      | u :: c2 :: cs2 =>
        if u = '_' then
          if isDigit c2 then
            let (ds, rest) := digitGroup (c2 :: cs2)
            (c :: ds, rest)
          else ([c], u :: c2 :: cs2)
        else
          let (ds, rest) := digitGroup (u :: c2 :: cs2)
          (c :: ds, rest)
      | [u2] =>
        let (ds, rest) := digitGroup [u2]
        (c :: ds, rest)
      | [] => ([c], [])
    else ([], c :: cs)

/-- The digits of a Python float literal, decomposed: negative-sign flag,
integer-part digits, fractional-part digits and signed decimal exponent. -/
structure PyDec where
  neg : Bool
  intDigits : List Char
  fracDigits : List Char
  expo : ℤ
deriving DecidableEq, Repr

/-- Exact rational value of a decomposed float literal. -/
def PyDec.toRat (d : PyDec) : ℚ :=
  (if d.neg then -1 else 1) *
    ((digitsVal d.intDigits : ℚ) + (digitsVal d.fracDigits : ℚ) / 10 ^ d.fracDigits.length) *
    (10 : ℚ) ^ d.expo

/-- Mantissa of a Python float literal: `digits[.digits]` or `.digits`,
with at least one digit overall and PEP 515 underscore grouping.  Returns
the two digit groups and the rest of the input. -/
def parseMantissa (cs : List Char) : Option ((List Char × List Char) × List Char) :=
  let (ip, rest) := digitGroup cs
  match rest with
  | '.' :: rest2 =>
    let (fp, rest3) := digitGroup rest2
    if ip.isEmpty && fp.isEmpty then none
    else some ((ip, fp), rest3)
  | _ => if ip.isEmpty then none else some ((ip, []), rest)

/-- Optional exponent part `e[+-]digits` of a Python float literal, as the
signed decimal exponent it contributes; absence contributes 0. -/
def parseExpPart : List Char → Option (ℤ × List Char)
  | 'e' :: cs | 'E' :: cs =>
    let (sgn, cs2) : ℤ × List Char :=
      match cs with
      | '+' :: r => (1, r)
      | '-' :: r => (-1, r)
      | r => (1, r)
    let (ds, rest) := digitGroup cs2
    if ds.isEmpty then none else some (sgn * (digitsVal ds : ℤ), rest)
  | cs => some (0, cs)

/-- Syntactic part of Python `float(text)` on finite decimal literals:
the transform to ASCII (whitespace normalization and Unicode digits),
then optional surrounding whitespace, optional sign, mantissa with
underscore grouping, optional exponent, and nothing else. -/
def pyFloatParse (cs0 : List Char) : Option PyDec :=
  let csA := cs0.map toAsciiDigits
  let cs1 := (((csA.dropWhile (· == ' ')).reverse).dropWhile (· == ' ')).reverse
  let (neg, cs2) : Bool × List Char :=
    match cs1 with
    | '+' :: r => (false, r)
    | '-' :: r => (true, r)
    | r => (false, r)
  match parseMantissa cs2 with
  | none => none
  | some ((ip, fp), cs3) =>
    match parseExpPart cs3 with
    | none => none
    | some (ex, cs4) => if cs4.isEmpty then some ⟨neg, ip, fp, ex⟩ else none

/-- Python `float(text)` on finite decimal literals, with exact rational
value: the CPython transform to ASCII followed by the literal grammar,
including PEP 515 underscores, Unicode decimal digits and Unicode
whitespace.  (`inf`/`nan` remain omitted: an infinite or nan probability
is rejected by the `0 <= p <= 1` range check and so produces the very
same `invalidProbability` error that this model produces by failing to
parse.) -/
def pyFloat (cs : List Char) : Option ℚ :=
  (pyFloatParse cs).map PyDec.toRat

/-- The distinct `ValueError` raise sites of `WeightedGenerator._parse_choices`:
`malformedPair` is the explicit `Invalid choice format` raise (no `:` in the
token); `unpackMismatch` is the uncaught tuple-unpacking `ValueError` when
`split(':')` does not yield exactly two parts; `invalidProbability` is the
re-raise in the `except ValueError` clause, reached both when `float()`
fails and when the parsed value is outside `[0, 1]` (the internal
out-of-range raise is caught and replaced by this one). -/
inductive ParseErr where
  | malformedPair (tok : List Char)
  | unpackMismatch (tok : List Char)
  | invalidProbability (label probText : List Char)
deriving DecidableEq, Repr

/-- Python-dict insertion on an ordered association list: a duplicate key
keeps its original position and gets the new value; a fresh key is appended. -/
def dictInsert (k : Label) (v : ℚ) : List (Label × ℚ) → List (Label × ℚ)
  | [] => [(k, v)]
  | (k', v') :: rest =>
    if k' = k then (k, v) :: rest else (k', v') :: dictInsert k v rest

/-- A generated record `\x7b'response': v\x7d`; `v` is `none` exactly when
`generate_record` returned Python `None` (empty-table fallback of the
weighted generator). -/
structure Rec where
  response : Option Label
deriving DecidableEq, Repr

namespace WeightedGenerator

/-- One iteration of the `for choice_pair in choices_str.split(',')` body:
membership test for `:`, two-way unpack of `split(':')`, `float` parse and
range check, with the out-of-range raise caught and re-raised as
`invalidProbability` exactly as the `except ValueError` clause does. -/
def parsePair (tok : List Char) : Except ParseErr (Label × ℚ) :=
  if ':' ∈ tok then
    match splitOnChar ':' tok with
    | [label, probText] =>
      match pyFloat probText with
      | none => .error (.invalidProbability label probText)
      | some p =>
        if 0 ≤ p ∧ p ≤ 1 then .ok (label, p)
        else .error (.invalidProbability label probText)
    | _ => .error (.unpackMismatch tok)
  else .error (.malformedPair tok)

/-- One loop iteration of `_parse_choices` acting on the accumulated dict:
`choices[choice] = probability` on success, propagating the raise. -/
def parseStep (acc : List (Label × ℚ)) (tok : List Char) :
    Except ParseErr (List (Label × ℚ)) :=
  match parsePair tok with
  | .error e => .error e
  | .ok (k, v) => .ok (dictInsert k v acc)

/-- `WeightedGenerator._parse_choices`: split the configuration string on
`,`, process the tokens left to right, and build the choice dict; the first
failing token raises. -/
def parse_choices (s : List Char) : Except ParseErr (List (Label × ℚ)) :=
  (splitOnChar ',' s).foldlM parseStep []

/-- The linear scan of `generate_record`: accumulate probabilities into
`cum` and return the first label whose running cumulative exceeds `r`. -/
def scanChoices (r : ℚ) : List (Label × ℚ) → ℚ → Option Label
  | [], _ => none
  | (c, p) :: rest, cum =>
    if r < cum + p then some c else scanChoices r rest (cum + p)

/-- `WeightedGenerator.generate_record` with the consumed uniform draw `r`
made explicit: the linear inverse-CDF scan, falling back to the last key
(`list(self.choices.keys())[-1]`) when the scan runs out, and to Python
`None` (here `Option.none`) when the table is empty. -/
def generate_record (choices : List (Label × ℚ)) (r : ℚ) : Option Label :=
  match scanChoices r choices 0 with
  | some c => some c
  | none => (choices.map Prod.fst).getLast?

/-- `WeightedGenerator.generate_data`, with the list of uniform draws the
loop consumes (one per record) made explicit. -/
def generate_data (choices : List (Label × ℚ)) (rs : List ℚ) : List Rec :=
  rs.map fun r => ⟨generate_record choices r⟩

/-- Running cumulative probability after the first `k` table entries. -/
def cumsum (tbl : List (Label × ℚ)) (k : ℕ) : ℚ :=
  ((tbl.take k).map Prod.snd).sum

end WeightedGenerator

namespace BinaryGenerator

/-- `BinaryGenerator.generate_record` with the consumed uniform draw `r`
made explicit: `'Yes' if random.random() < self.probability else 'No'`. -/
def generate_record (p r : ℚ) : Label :=
  if r < p then "Yes".toList else "No".toList

/-- `BinaryGenerator.generate_data`, with the list of uniform draws the
loop consumes (one per record) made explicit. -/
def generate_data (p : ℚ) (rs : List ℚ) : List Rec :=
  rs.map fun r => ⟨some (generate_record p r)⟩

end BinaryGenerator

namespace Output

/-- `csv` module field encoding under the default `QUOTE_MINIMAL` dialect:
a field containing the delimiter, the quote or a line-terminator character
is wrapped in quotes with embedded quotes doubled; otherwise it is written
verbatim. -/
def csvField (s : Label) : List Char :=
  if s.any (fun c => c = ',' || c = '"' || c = '\n' || c = '\r') then
    '"' :: (s.flatMap fun c => if c = '"' then ['"', '"'] else [c]) ++ ['"']
  else s

/-- The CSV cell `DictWriter.writerow` emits for one record's `response`
value: Python `None` is written as the empty field. -/
def csvCell (r : Rec) : List Char :=
  match r.response with
  | none => []
  | some l => csvField l

/-- `save_csv` over the modelled filesystem: the second argument is the
target path's current content (`none` when the file does not exist) and
the result its content afterwards.  Empty data short-circuits before the
file is opened; otherwise the file is truncated and rewritten with the
header row (the keys of the first record, here always the single key
`response`) and one `\r\n`-terminated data row per record in order. -/
def save_csv (data : List Rec) (target : Option (List Char)) : Option (List Char) :=
  if data.isEmpty then target
  else some ("response\r\n".toList ++ data.flatMap fun r => csvCell r ++ "\r\n".toList)

/-- Lowercase hexadecimal digit, as produced by Python's `'\u%04x'`. -/
def hexDigit (n : ℕ) : Char :=
  Char.ofNat (if n < 10 then 48 + n else 87 + n)

/-- Four-digit lowercase hexadecimal rendering of `n < 0x10000`. -/
def hex4 (n : ℕ) : List Char :=
  [hexDigit (n / 4096 % 16), hexDigit (n / 256 % 16), hexDigit (n / 16 % 16), hexDigit (n % 16)]

/-- `json.dumps` escaping of one character under the default
`ensure_ascii=True`: backslash and quote get two-character escapes, the
classic control characters their short escapes, printable ASCII is
verbatim, everything else becomes `\uXXXX` (a surrogate pair beyond the
basic multilingual plane). -/
def encodeChar (c : Char) : List Char :=
  if c = '"' then ['\\', '"']
  else if c = '\\' then ['\\', '\\']
  else if c = Char.ofNat 8 then ['\\', 'b']
  else if c = Char.ofNat 12 then ['\\', 'f']
  else if c = '\n' then ['\\', 'n']
  else if c = '\r' then ['\\', 'r']
  else if c = '\t' then ['\\', 't']
  else if 32 ≤ c.toNat ∧ c.toNat ≤ 126 then [c]
  else if c.toNat < 65536 then '\\' :: 'u' :: hex4 c.toNat
  else
    '\\' :: 'u' :: hex4 (55296 + (c.toNat - 65536) / 1024) ++
      '\\' :: 'u' :: hex4 (56320 + (c.toNat - 65536) % 1024)

/-- `json.dumps` rendering of a Python string: quoted, characters escaped. -/
def jsonString (s : Label) : List Char :=
  '"' :: (s.flatMap encodeChar) ++ ['"']

/-- `json.dumps(\x7b'response': v\x7d)` with the default separators:
`\x7b"response": V\x7d` where `V` is `null` for Python `None` and the
escaped quoted string otherwise. -/
def serializeRec (r : Rec) : List Char :=
  "\x7b\"response\": ".toList ++
    (match r.response with
     | none => "null".toList
     | some l => jsonString l) ++ "\x7d".toList

/-- `save_jsonl` file content: each record's compact JSON object followed
by a newline, concatenated in sequence order. -/
def save_jsonl (data : List Rec) : List Char :=
  (data.map fun r => serializeRec r ++ ['\n']).flatten

/-- Value of one hexadecimal digit character, upper or lower case. -/
def decodeHexDigit (c : Char) : Option ℕ :=
  if 48 ≤ c.toNat ∧ c.toNat ≤ 57 then some (c.toNat - 48)
  else if 97 ≤ c.toNat ∧ c.toNat ≤ 102 then some (c.toNat - 87)
  else if 65 ≤ c.toNat ∧ c.toNat ≤ 70 then some (c.toNat - 55)
  else none

/-- Value of a four-digit hexadecimal escape payload. -/
def decodeHex4 (a b c d : Char) : Option ℕ :=
  match decodeHexDigit a, decodeHexDigit b, decodeHexDigit c, decodeHexDigit d with
  | some x, some y, some z, some w => some (((x * 16 + y) * 16 + z) * 16 + w)
  | _, _, _, _ => none

/-- Surrogate-pair continuation of a `\\uXXXX` escape whose value `v` is a
high surrogate: expects `\\u` and four hex digits encoding a low surrogate,
and recombines the two into the astral-plane character. -/
def surrStep (v : ℕ) : List Char → Option (Char × List Char)
  | x1 :: x2 :: a2 :: b2 :: c2 :: d2 :: rest4 =>
    if x1 = '\\' ∧ x2 = 'u' then
      match decodeHex4 a2 b2 c2 d2 with
      | none => none
      | some v2 =>
        if 56320 ≤ v2 ∧ v2 < 57344 then
          some (Char.ofNat (65536 + (v - 55296) * 1024 + (v2 - 56320)), rest4)
        else none
    else none
  | _ => none

/-- Decoding of the payload of a `\\u` escape: four hex digits, with a
high-surrogate value continuing into `surrStep` and a lone low surrogate
rejected. -/
def hexStep : List Char → Option (Char × List Char)
  | a :: b :: d :: d' :: rest3 =>
    match decodeHex4 a b d d' with
    | none => none
    | some v =>
      if v < 55296 ∨ 57344 ≤ v then some (Char.ofNat v, rest3)
      else if v < 56320 then surrStep v rest3
      else none
  | _ => none

/-- Decoding of one escape sequence: the character after the backslash
selects a two-character escape or a `\\u` escape; anything else is
rejected. -/
def escStep (e : Char) (rest2 : List Char) : Option (Char × List Char) :=
  if e = '"' then some ('"', rest2)
  else if e = '\\' then some ('\\', rest2)
  else if e = '/' then some ('/', rest2)
  else if e = 'b' then some (Char.ofNat 8, rest2)
  else if e = 'f' then some (Char.ofNat 12, rest2)
  else if e = 'n' then some ('\n', rest2)
  else if e = 'r' then some ('\r', rest2)
  else if e = 't' then some ('\t', rest2)
  else if e = 'u' then hexStep rest2
  else none

/-- One scanning step of the JSON string-body reader: either the closing
quote (`inl` with the input after it) or one decoded character (`inr`).
Strict mode: unescaped control characters and malformed escapes are
rejected. -/
def decodeStep : List Char → Option (List Char ⊕ Char × List Char)
  | [] => none
  | c :: rest =>
    if c = '"' then some (.inl rest)
    else if c = '\\' then
      match rest with
      | [] => none
      | e :: rest2 => (escStep e rest2).map .inr
    else if c.toNat < 32 then none
    else some (.inr (c, rest))

set_option maxRecDepth 4096 in
lemma surrStep_length {v : ℕ} {cs : List Char} {c : Char} {rest : List Char}
    (h : surrStep v cs = some (c, rest)) : rest.length + 6 ≤ cs.length := by
  match cs with
  | x1 :: x2 :: a2 :: b2 :: c2 :: d2 :: rest4 =>
    simp only [surrStep] at h
    by_cases hxu : x1 = '\\' ∧ x2 = 'u'
    · rw [if_pos hxu] at h
      split at h
      · cases h
      · split at h
        · simp only [Option.some.injEq, Prod.mk.injEq] at h
          obtain ⟨hc, hrest⟩ := h
          subst hrest
          simp
        · cases h
    · rw [if_neg hxu] at h
      cases h
  | [] => simp [surrStep] at h
  | [a] => simp [surrStep] at h
  | [a, b] => simp [surrStep] at h
  | [a, b, c] => simp [surrStep] at h
  | [a, b, c, d] => simp [surrStep] at h
  | [a, b, c, d, e] => simp [surrStep] at h

lemma hexStep_length {cs : List Char} {c : Char} {rest : List Char}
    (h : hexStep cs = some (c, rest)) : rest.length + 4 ≤ cs.length := by
  match cs with
  | a :: b :: d :: d' :: rest3 =>
    simp only [hexStep] at h
    split at h
    · cases h
    · split_ifs at h
      · injection h with h2
        cases h2
        simp
      · have := surrStep_length h
        simp only [List.length_cons]
        omega
  | [] => simp [hexStep] at h
  | [a] => simp [hexStep] at h
  | [a, b] => simp [hexStep] at h
  | [a, b, c] => simp [hexStep] at h

lemma escStep_length {e : Char} {cs : List Char} {c : Char} {rest : List Char}
    (h : escStep e cs = some (c, rest)) : rest.length ≤ cs.length := by
  simp only [escStep] at h
  split_ifs at h <;> first
    | (injection h with h2; cases h2; exact le_refl _)
    | (have hx := hexStep_length h; omega)

lemma decodeStep_length : ∀ (cs : List Char) (c : Char) (rest : List Char),
    decodeStep cs = some (.inr (c, rest)) → rest.length < cs.length := by
  intro cs c rest h
  match cs with
  | [] => simp [decodeStep] at h
  | c0 :: rest0 =>
    simp only [decodeStep] at h
    split_ifs at h with hq hb hc
    · simp at h
    · cases rest0 with
      | nil => simp at h
      | cons e rest2 =>
        simp only [Option.map_eq_some'] at h
        obtain ⟨p, hp, he⟩ := h
        injection he with he2
        cases he2
        have := escStep_length hp
        simp only [List.length_cons]
        omega
    · injection h with h2
      injection h2 with h3
      cases h3
      simp

/-- JSON string-body scanner (the reader side of the round-trip, after the
opening quote): repeats `decodeStep`, collecting decoded characters until
the closing quote, and returns them with the remaining input. -/
def decodeBody (cs : List Char) : Option (List Char × List Char) :=
  match h : decodeStep cs with
  | none => none
  | some (.inl rest) => some ([], rest)
  | some (.inr (c, rest)) => (decodeBody rest).map fun p => (c :: p.1, p.2)
termination_by cs.length
decreasing_by exact decodeStep_length cs c rest h

/-- JSON string reader: expects the opening quote then scans the body. -/
def decodeString : List Char → Option (List Char × List Char)
  | '"' :: rest => decodeBody rest
  | _ => none

/-- Consume an expected literal from the front of the input. -/
def stripLeading : List Char → List Char → Option (List Char)
  | [], cs => some cs
  | _ :: _, [] => none
  | p :: ps, c :: cs => if c = p then stripLeading ps cs else none

/-- `json.loads` of one line, specialised to the single-key record shape
`\x7b"response": V\x7d` the generators produce. -/
def parseRecLine (cs : List Char) : Option Rec :=
  match stripLeading "\x7b\"response\": ".toList cs with
  | none => none
  | some rest =>
    match stripLeading "null\x7d".toList rest with
    | some [] => some ⟨none⟩
    | _ =>
      match decodeString rest with
      | some (s, tail) => if tail = "\x7d".toList then some ⟨some s⟩ else none
      | none => none

/-- Reading a JSON-Lines file back record by record: split the content on
newlines, ignore the empty token after the final newline, and `json.loads`
each line. -/
def load_jsonl (content : List Char) : Option (List Rec) :=
  let ls := splitOnChar '\n' content
  (if ls.getLast? = some [] then ls.dropLast else ls).mapM parseRecLine

end Output

end Apollo

/-!
Theorems.  Claim-level results are stated over the embedded definitions
above; helper lemmas are shared.
-/

namespace Apollo.WeightedGenerator

lemma cumsum_zero (tbl : List (Label × ℚ)) : cumsum tbl 0 = 0 := rfl

lemma cumsum_succ (x : Label × ℚ) (rest : List (Label × ℚ)) (k : ℕ) :
    cumsum (x :: rest) (k + 1) = x.2 + cumsum rest k := by
  simp [cumsum]

lemma scanChoices_first (r : ℚ) :
    ∀ (tbl : List (Label × ℚ)) (cum : ℚ) (i : ℕ) (hi : i < tbl.length),
      r < cum + cumsum tbl (i + 1) →
      (∀ j < i, ¬ r < cum + cumsum tbl (j + 1)) →
      scanChoices r tbl cum = some (tbl.get ⟨i, hi⟩).1
  | [], _, i, hi, _, _ => absurd hi (by simp)
  | (c, p) :: rest, cum, 0, hi, hlt, _ => by
    have h : r < cum + p := by
      rw [cumsum_succ, cumsum_zero] at hlt
      simpa using hlt
    simp [scanChoices, h]
  | (c, p) :: rest, cum, i + 1, hi, hlt, hmin => by
    have h0 : ¬ r < cum + p := by
      have := hmin 0 (Nat.succ_pos i)
      rw [cumsum_succ, cumsum_zero] at this
      simpa using this
    have hi' : i < rest.length := by simpa using hi
    have hlt' : r < (cum + p) + cumsum rest (i + 1) := by
      rw [cumsum_succ] at hlt; linarith
    have hmin' : ∀ j < i, ¬ r < (cum + p) + cumsum rest (j + 1) := by
      intro j hj hc
      have := hmin (j + 1) (by omega)
      rw [cumsum_succ] at this
      exact this (by linarith)
    have hrec := scanChoices_first r rest (cum + p) i hi' hlt' hmin'
    simp [scanChoices, h0, hrec]

lemma scanChoices_none (r : ℚ) :
    ∀ (tbl : List (Label × ℚ)) (cum : ℚ),
      (∀ i < tbl.length, ¬ r < cum + cumsum tbl (i + 1)) →
      scanChoices r tbl cum = none
  | [], _, _ => rfl
  | (c, p) :: rest, cum, h => by
    have h0 : ¬ r < cum + p := by
      have := h 0 (by simp)
      rw [cumsum_succ, cumsum_zero] at this
      simpa using this
    have h' : ∀ i < rest.length, ¬ r < (cum + p) + cumsum rest (i + 1) := by
      intro i hilen hc
      have := h (i + 1) (by simpa using Nat.succ_lt_succ hilen)
      rw [cumsum_succ] at this
      exact this (by linarith)
    simp [scanChoices, h0, scanChoices_none r rest (cum + p) h']

/-- C1: for every choice table and drawn value `r`, if entry `i` is the
first one (in the table's stored iteration order) whose running cumulative
probability strictly exceeds `r`, then `generate_record` returns that
entry's label. -/
theorem generate_record_first_match (tbl : List (Label × ℚ)) (r : ℚ) (i : ℕ)
    (hi : i < tbl.length) (hlt : r < cumsum tbl (i + 1))
    (hmin : ∀ j < i, ¬ r < cumsum tbl (j + 1)) :
    generate_record tbl r = some (tbl.get ⟨i, hi⟩).1 := by
  have h := scanChoices_first r tbl 0 i hi (by simpa using hlt)
    (by intro j hj; simpa using hmin j hj)
  simp [generate_record, h]

/-- Witness for C1: with the table `A:0.5,B:0.5` and the draw fixed at
`0.4`, the sampler returns `A`. -/
theorem generate_record_first_match_witness :
    (0 < ([("A".toList, (1 : ℚ)/2), ("B".toList, (1 : ℚ)/2)]).length
       ∧ (2 : ℚ)/5 < cumsum [("A".toList, (1 : ℚ)/2), ("B".toList, (1 : ℚ)/2)] 1)
    ∧ generate_record [("A".toList, (1 : ℚ)/2), ("B".toList, (1 : ℚ)/2)] ((2 : ℚ)/5)
        = some "A".toList := by
  refine ⟨⟨by norm_num, by norm_num [cumsum]⟩, ?_⟩
  have h := generate_record_first_match
      [("A".toList, (1 : ℚ)/2), ("B".toList, (1 : ℚ)/2)] ((2 : ℚ)/5) 0
      (by norm_num) (by norm_num [cumsum])
      (by intro j hj; cases Nat.not_lt_zero j hj)
  simpa using h

/-- C2: when no entry's running cumulative probability exceeds the draw
after the full scan, `generate_record` does not raise: it returns the last
label in iteration order, and `none` (Python `None`) for the empty table. -/
theorem generate_record_fallback (tbl : List (Label × ℚ)) (r : ℚ)
    (h : ∀ i < tbl.length, ¬ r < cumsum tbl (i + 1)) :
    generate_record tbl r = (tbl.map Prod.fst).getLast?
      ∧ (tbl = [] → generate_record tbl r = none) := by
  have hs := scanChoices_none r tbl 0 (by intro i hilen; simpa using h i hilen)
  constructor
  · simp [generate_record, hs]
  · intro he; subst he; rfl

/-- Witness for C2: the table `A:0.3,B:0.3` (summing to 0.6) with draw
`0.9` yields the fallback label `B`, not an exception. -/
theorem generate_record_fallback_witness :
    (∀ i < ([("A".toList, (3 : ℚ)/10), ("B".toList, (3 : ℚ)/10)]).length,
        ¬ (9 : ℚ)/10 < cumsum [("A".toList, (3 : ℚ)/10), ("B".toList, (3 : ℚ)/10)] (i + 1))
    ∧ generate_record [("A".toList, (3 : ℚ)/10), ("B".toList, (3 : ℚ)/10)] ((9 : ℚ)/10)
        = some "B".toList := by
  have hh : ∀ i < ([("A".toList, (3 : ℚ)/10), ("B".toList, (3 : ℚ)/10)]).length,
      ¬ (9 : ℚ)/10 < cumsum [("A".toList, (3 : ℚ)/10), ("B".toList, (3 : ℚ)/10)] (i + 1) := by
    intro i hilen
    simp only [List.length_cons, List.length_nil] at hilen
    interval_cases i <;> norm_num [cumsum]
  refine ⟨hh, ?_⟩
  have h := (generate_record_fallback _ _ hh).1
  simpa using h

end Apollo.WeightedGenerator

namespace Apollo

lemma splitOnChar_ne_nil (sep : Char) : ∀ (cs : List Char), splitOnChar sep cs ≠ []
  | [] => by simp [splitOnChar]
  | c :: cs => by
    cases h : splitOnChar sep cs with
    | nil => simp [splitOnChar, h]
    | cons t ts => simp only [splitOnChar, h]; split <;> simp

lemma splitOnChar_not_mem {sep : Char} :
    ∀ {cs : List Char}, sep ∉ cs → splitOnChar sep cs = [cs]
  | [], _ => rfl
  | c :: cs, h => by
    have hc : ¬ c = sep := fun e => h (by simp [e])
    have hrest : sep ∉ cs := fun m => h (by simp [m])
    simp [splitOnChar, splitOnChar_not_mem hrest, hc]

lemma splitOnChar_append_cons {sep : Char} :
    ∀ {x : List Char} (rest : List Char), sep ∉ x →
      splitOnChar sep (x ++ sep :: rest) = x :: splitOnChar sep rest
  | [], rest, _ => by
    cases h : splitOnChar sep rest with
    | nil => exact absurd h (splitOnChar_ne_nil sep rest)
    | cons t ts => simp [splitOnChar, h]
  | c :: x, rest, hmem => by
    have hc : ¬ c = sep := fun e => hmem (by simp [e])
    have hx : sep ∉ x := fun m => hmem (by simp [m])
    have ih := splitOnChar_append_cons (x := x) rest hx
    show splitOnChar sep (c :: (x ++ sep :: rest)) = (c :: x) :: splitOnChar sep rest
    rw [splitOnChar, ih]
    simp [hc]

end Apollo

namespace Apollo.WeightedGenerator

lemma colon_mem_of_split {tok l pr : List Char}
    (hsplit : splitOnChar ':' tok = [l, pr]) : ':' ∈ tok := by
  by_contra hm
  have h2 := splitOnChar_not_mem hm
  rw [hsplit] at h2
  simp at h2

lemma parsePair_ok {tok l pr : List Char} {p : ℚ}
    (hsplit : splitOnChar ':' tok = [l, pr]) (hf : pyFloat pr = some p)
    (h0 : 0 ≤ p) (h1 : p ≤ 1) : parsePair tok = .ok (l, p) := by
  simp [parsePair, colon_mem_of_split hsplit, hsplit, hf, h0, h1]

end Apollo.WeightedGenerator

namespace Apollo.WeightedGenerator

/-- C3 (amended): parsing fails exactly when some comma-separated token is
malformed, but the error kinds follow the raise sites of the code: a token
with zero `:` raises the malformed-pair error; a token with more than one
`:` raises the tuple-unpacking `ValueError`, not the malformed-pair error;
a non-numeric probability and an out-of-range probability both raise the
same invalid-probability error (the internal out-of-range raise is caught
by the `except ValueError` clause and re-raised with the non-numeric
message); and parsing succeeds whenever every token has exactly one `:`
and a numeric probability in `[0, 1]`. -/
lemma pyFloat_05 : pyFloat "0.5".toList = some ((1 : ℚ)/2) := by
  have h : pyFloatParse "0.5".toList = some ⟨false, ['0'], ['5'], 0⟩ := by decide
  simp only [pyFloat, h, Option.map_some']
  norm_num [PyDec.toRat, show digitsVal ['0'] = 0 from rfl, show digitsVal ['5'] = 5 from rfl]

/-- Counterexample for C4: parsing the empty configuration string does not
succeed with an empty table. -/
theorem parse_choices_empty_counterexample :
    parse_choices ([] : List Char) ≠ Except.ok [] := by
  intro h
  exact nomatch (show Except.error (ParseErr.malformedPair [])
    = Except.ok ([] : List (Label × ℚ)) from h)

/-- C4 (amended): `"".split(',')` yields the single empty token, which
contains no `:`, so construction from the empty string raises the
malformed-pair `ValueError` instead of yielding an empty table. -/
theorem parse_choices_empty_raises :
    parse_choices ([] : List Char) = Except.error (ParseErr.malformedPair []) := rfl

end Apollo.WeightedGenerator

namespace Apollo.BinaryGenerator

/-- C6: with each per-call draw uniform in `[0, 1)`, the binary generator
at `p = 0` answers `No` on every record of a 100-record batch, at `p = 1`
answers `Yes` on every record, and in general one call returns `Yes`
exactly when its draw satisfies `r < p` and `No` otherwise. -/
theorem generate_record_threshold (p : ℚ) (rs : List ℚ)
    (hrange : ∀ r ∈ rs, 0 ≤ r ∧ r < 1) (_hlen : rs.length = 100) :
    (p = 0 → ∀ q ∈ generate_data p rs, q.response = some "No".toList)
    ∧ (p = 1 → ∀ q ∈ generate_data p rs, q.response = some "Yes".toList)
    ∧ (∀ r : ℚ, (generate_record p r = "Yes".toList ↔ r < p)
        ∧ (generate_record p r = "No".toList ↔ ¬ r < p)) := by
  refine ⟨?_, ?_, ?_⟩
  · rintro rfl q hq
    rcases List.mem_map.mp hq with ⟨r, hr, rfl⟩
    have h0 : ¬ r < 0 := not_lt.mpr (hrange r hr).1
    simp [generate_record, h0]
  · rintro rfl q hq
    rcases List.mem_map.mp hq with ⟨r, hr, rfl⟩
    have h1 : r < 1 := (hrange r hr).2
    simp [generate_record, h1]
  · intro r
    by_cases h : r < p
    · refine ⟨⟨fun _ => h, fun _ => by simp [generate_record, h]⟩, ?_, ?_⟩
      · intro hno
        simp [generate_record, h] at hno
      · intro hno
        exact absurd h hno
    · refine ⟨⟨?_, fun hlt => absurd hlt h⟩, fun _ => h, fun _ => by simp [generate_record, h]⟩
      intro hyes
      simp [generate_record, h] at hyes

/-- Witness for C6: `p = 0` over 100 zero draws yields all `No`. -/
theorem generate_record_threshold_witness :
    ((∀ r ∈ List.replicate 100 (0 : ℚ), 0 ≤ r ∧ r < 1)
      ∧ (List.replicate 100 (0 : ℚ)).length = 100)
    ∧ ∀ q ∈ generate_data 0 (List.replicate 100 (0 : ℚ)), q.response = some "No".toList := by
  have hr : ∀ r ∈ List.replicate 100 (0 : ℚ), 0 ≤ r ∧ r < 1 := by
    intro r hrr
    rw [List.eq_of_mem_replicate hrr]
    norm_num
  exact ⟨⟨hr, by simp⟩,
    (generate_record_threshold 0 (List.replicate 100 0) hr (by simp)).1 rfl⟩

end Apollo.BinaryGenerator

namespace Apollo

/-- C7: for both generators, `generate_data` consumes exactly one draw per
record and returns exactly `rs.length` records in generation order, the
`i`-th being the single-key record wrapping the `i`-th `generate_record`
result. -/
theorem generate_data_shape (p : ℚ) (choices : List (Label × ℚ))
    (rs : List ℚ) (i : ℕ) :
    (BinaryGenerator.generate_data p rs).length = rs.length
    ∧ (WeightedGenerator.generate_data choices rs).length = rs.length
    ∧ (BinaryGenerator.generate_data p rs)[i]?
        = (rs[i]?).map (fun r => ⟨some (BinaryGenerator.generate_record p r)⟩)
    ∧ (WeightedGenerator.generate_data choices rs)[i]?
        = (rs[i]?).map (fun r => ⟨WeightedGenerator.generate_record choices r⟩) := by
  refine ⟨?_, ?_, ?_, ?_⟩
  · simp [BinaryGenerator.generate_data]
  · simp [WeightedGenerator.generate_data]
  · simp [BinaryGenerator.generate_data, List.getElem?_map]
  · simp [WeightedGenerator.generate_data, List.getElem?_map]

/-- C10: generation is deterministic given the random stream — the output
of `generate_data` depends on nothing besides the parsed configuration,
the count and the supplied draws, so two runs from the same configuration
string over the same draw sequence coincide element by element. -/
theorem generate_data_deterministic (s : List Char)
    (tbl₁ tbl₂ : List (Label × ℚ)) (p : ℚ) (rs : List ℚ)
    (h₁ : WeightedGenerator.parse_choices s = Except.ok tbl₁)
    (h₂ : WeightedGenerator.parse_choices s = Except.ok tbl₂) :
    WeightedGenerator.generate_data tbl₁ rs = WeightedGenerator.generate_data tbl₂ rs
    ∧ BinaryGenerator.generate_data p rs = BinaryGenerator.generate_data p rs := by
  rw [h₁] at h₂
  injection h₂ with h
  exact ⟨by rw [h], rfl⟩

/-- Witness for C10: two runs configured by `A:0.5` over the one-element
draw stream `[1/3]` coincide. -/
theorem generate_data_deterministic_witness :
    WeightedGenerator.parse_choices "A:0.5".toList
      = Except.ok [("A".toList, (1 : ℚ)/2)]
    ∧ WeightedGenerator.generate_data [("A".toList, (1 : ℚ)/2)] [(1 : ℚ)/3]
        = WeightedGenerator.generate_data [("A".toList, (1 : ℚ)/2)] [(1 : ℚ)/3] := by
  have hp : WeightedGenerator.parsePair "A:0.5".toList
      = Except.ok ("A".toList, (1 : ℚ)/2) :=
    WeightedGenerator.parsePair_ok (by decide) WeightedGenerator.pyFloat_05
      (by norm_num) (by norm_num)
  have hparse : WeightedGenerator.parse_choices "A:0.5".toList
      = Except.ok [("A".toList, (1 : ℚ)/2)] := by
    have hstep : WeightedGenerator.parseStep [] "A:0.5".toList
        = Except.ok [("A".toList, (1 : ℚ)/2)] := by
      unfold WeightedGenerator.parseStep
      rw [hp]
      rfl
    show (splitOnChar ',' "A:0.5".toList).foldlM WeightedGenerator.parseStep [] = _
    rw [show splitOnChar ',' "A:0.5".toList = ["A:0.5".toList] from by decide,
      List.foldlM_cons, hstep]
    rfl
  exact ⟨hparse,
    (generate_data_deterministic "A:0.5".toList _ _ ((1 : ℚ)/2) [(1 : ℚ)/3]
      hparse hparse).1⟩

end Apollo

namespace Apollo.Output

/-- C8: `save_csv` on an empty record sequence is a no-op on the modelled
filesystem — it neither creates the target file nor modifies existing
content; on a non-empty sequence it overwrites the target with the header
row (the keys of the first record) followed by one data row per record in
sequence order. -/
theorem save_csv_contract (target : Option (List Char)) (q : Rec)
    (data : List Rec) :
    save_csv [] target = target
    ∧ save_csv ([] : List Rec) none = none
    ∧ save_csv (q :: data) target
        = some ("response\r\n".toList
            ++ (q :: data).flatMap fun r => csvCell r ++ "\r\n".toList) :=
  ⟨rfl, rfl, rfl⟩

end Apollo.Output

namespace Apollo.Output

lemma char_scalar (c : Char) :
    (c.toNat < 55296 ∨ 57344 ≤ c.toNat) ∧ c.toNat < 1114112 := by
  have he : c.toNat = c.val.toNat := rfl
  rcases c.valid with h | ⟨h1, h2⟩
  · exact ⟨Or.inl (by omega), by omega⟩
  · exact ⟨Or.inr (by omega), by omega⟩

lemma decodeHexDigit_hexDigit : ∀ n < 16, decodeHexDigit (hexDigit n) = some n := by
  decide

lemma decodeHex4_hex4 {n : ℕ} (h : n < 65536) :
    decodeHex4 (hexDigit (n / 4096 % 16)) (hexDigit (n / 256 % 16))
      (hexDigit (n / 16 % 16)) (hexDigit (n % 16)) = some n := by
  unfold decodeHex4
  rw [decodeHexDigit_hexDigit _ (Nat.mod_lt _ (by norm_num)),
      decodeHexDigit_hexDigit _ (Nat.mod_lt _ (by norm_num)),
      decodeHexDigit_hexDigit _ (Nat.mod_lt _ (by norm_num)),
      decodeHexDigit_hexDigit _ (Nat.mod_lt _ (by norm_num))]
  exact congrArg some (by omega :
    ((n / 4096 % 16 * 16 + n / 256 % 16) * 16 + n / 16 % 16) * 16 + n % 16 = n)

lemma decodeBody_inl {cs rest : List Char} (h : decodeStep cs = some (.inl rest)) :
    decodeBody cs = some ([], rest) := by
  rw [decodeBody]
  split
  · rename_i heq
    rw [h] at heq
    cases heq
  · rename_i rest' heq
    rw [h] at heq
    injection heq with h1
    injection h1 with h2
    rw [h2]
  · rename_i c' rest' heq
    rw [h] at heq
    injection heq with h1
    exact Sum.noConfusion h1

lemma decodeBody_inr {cs : List Char} {c : Char} {rest : List Char}
    (h : decodeStep cs = some (.inr (c, rest))) :
    decodeBody cs = (decodeBody rest).map fun p => (c :: p.1, p.2) := by
  rw [decodeBody]
  split
  · rename_i heq
    rw [h] at heq
    cases heq
  · rename_i rest' heq
    rw [h] at heq
    injection heq with h1
    exact Sum.noConfusion h1
  · rename_i c' rest' heq
    rw [h] at heq
    injection heq with h1
    injection h1 with h2
    injection h2 with h3 h4
    rw [h3, h4]

lemma decodeStep_plain {c : Char} (rest : List Char) (h1 : ¬ c = '"')
    (h2 : ¬ c = '\\') (h3 : ¬ c.toNat < 32) :
    decodeStep (c :: rest) = some (.inr (c, rest)) := by
  simp only [decodeStep]
  rw [if_neg h1, if_neg h2, if_neg h3]

lemma decodeStep_backslash (e : Char) (rest2 : List Char) :
    decodeStep ('\\' :: e :: rest2) = (escStep e rest2).map Sum.inr := by
  simp only [decodeStep]
  rw [if_neg (by decide), if_true]

lemma escStep_u (cs : List Char) : escStep 'u' cs = hexStep cs := by
  simp only [escStep]
  rw [if_neg (by decide), if_neg (by decide), if_neg (by decide), if_neg (by decide),
      if_neg (by decide), if_neg (by decide), if_neg (by decide), if_neg (by decide),
      if_true]

lemma hexStep_hex4 {n : ℕ} (rest : List Char) (hn : n < 65536)
    (hs : n < 55296 ∨ 57344 ≤ n) :
    hexStep (hex4 n ++ rest) = some (Char.ofNat n, rest) := by
  show hexStep (hexDigit (n / 4096 % 16) :: hexDigit (n / 256 % 16)
      :: hexDigit (n / 16 % 16) :: hexDigit (n % 16) :: rest) = _
  simp only [hexStep]
  rw [decodeHex4_hex4 hn]
  show (if n < 55296 ∨ 57344 ≤ n then some (Char.ofNat n, rest)
      else if n < 56320 then surrStep n rest else none) = some (Char.ofNat n, rest)
  rw [if_pos hs]

lemma surrStep_pair {v lo : ℕ} (rest : List Char) (hlo : lo < 65536)
    (hlo2 : 56320 ≤ lo ∧ lo < 57344) :
    surrStep v ('\\' :: 'u' :: hex4 lo ++ rest)
      = some (Char.ofNat (65536 + (v - 55296) * 1024 + (lo - 56320)), rest) := by
  show surrStep v ('\\' :: 'u' :: hexDigit (lo / 4096 % 16) :: hexDigit (lo / 256 % 16)
      :: hexDigit (lo / 16 % 16) :: hexDigit (lo % 16) :: rest) = _
  simp only [surrStep]
  rw [if_pos ⟨trivial, trivial⟩, decodeHex4_hex4 hlo]
  show (if 56320 ≤ lo ∧ lo < 57344
      then some (Char.ofNat (65536 + (v - 55296) * 1024 + (lo - 56320)), rest)
      else none) = _
  rw [if_pos hlo2]

lemma hexStep_astral {hi lo : ℕ} (rest : List Char)
    (hhi : 55296 ≤ hi ∧ hi < 56320) (hlo : 56320 ≤ lo ∧ lo < 57344) :
    hexStep (hex4 hi ++ ('\\' :: 'u' :: hex4 lo ++ rest))
      = some (Char.ofNat (65536 + (hi - 55296) * 1024 + (lo - 56320)), rest) := by
  show hexStep (hexDigit (hi / 4096 % 16) :: hexDigit (hi / 256 % 16)
      :: hexDigit (hi / 16 % 16) :: hexDigit (hi % 16)
      :: ('\\' :: 'u' :: hex4 lo ++ rest)) = _
  simp only [hexStep]
  rw [decodeHex4_hex4 (by omega)]
  show (if hi < 55296 ∨ 57344 ≤ hi then some (Char.ofNat hi, '\\' :: 'u' :: hex4 lo ++ rest)
      else if hi < 56320 then surrStep hi ('\\' :: 'u' :: hex4 lo ++ rest) else none) = _
  rw [if_neg (by omega), if_pos (by omega), surrStep_pair rest (by omega) hlo]

end Apollo.Output

namespace Apollo.Output

lemma decodeStep_encodeChar (c : Char) (rest : List Char) :
    decodeStep (encodeChar c ++ rest) = some (.inr (c, rest)) := by
  have hval := char_scalar c
  by_cases h1 : c = '"'
  · subst h1; rfl
  by_cases h2 : c = '\\'
  · subst h2; rfl
  by_cases h3 : c = Char.ofNat 8
  · subst h3; rfl
  by_cases h4 : c = Char.ofNat 12
  · subst h4; rfl
  by_cases h5 : c = '\n'
  · subst h5; rfl
  by_cases h6 : c = '\r'
  · subst h6; rfl
  by_cases h7 : c = '\t'
  · subst h7; rfl
  by_cases h8 : 32 ≤ c.toNat ∧ c.toNat ≤ 126
  · have henc : encodeChar c = [c] := by
      unfold encodeChar
      rw [if_neg h1, if_neg h2, if_neg h3, if_neg h4, if_neg h5, if_neg h6, if_neg h7,
        if_pos h8]
    rw [henc]
    exact decodeStep_plain rest h1 h2 (by omega)
  by_cases h9 : c.toNat < 65536
  · have henc : encodeChar c = '\\' :: 'u' :: hex4 c.toNat := by
      unfold encodeChar
      rw [if_neg h1, if_neg h2, if_neg h3, if_neg h4, if_neg h5, if_neg h6, if_neg h7,
        if_neg h8, if_pos h9]
    rw [henc,
      show ('\\' :: 'u' :: hex4 c.toNat) ++ rest = '\\' :: 'u' :: (hex4 c.toNat ++ rest)
        from rfl,
      decodeStep_backslash, escStep_u, hexStep_hex4 rest h9 hval.1, Option.map_some',
      Char.ofNat_toNat]
  · have henc : encodeChar c
        = '\\' :: 'u' :: hex4 (55296 + (c.toNat - 65536) / 1024) ++
            '\\' :: 'u' :: hex4 (56320 + (c.toNat - 65536) % 1024) := by
      unfold encodeChar
      rw [if_neg h1, if_neg h2, if_neg h3, if_neg h4, if_neg h5, if_neg h6, if_neg h7,
        if_neg h8, if_neg h9]
    have hlt := hval.2
    have hq : (c.toNat - 65536) / 1024 ≤ 1023 := by omega
    have hr : (c.toNat - 65536) % 1024 ≤ 1023 := by
      have := Nat.mod_lt (c.toNat - 65536) (show 0 < 1024 by norm_num)
      omega
    rw [henc,
      show ('\\' :: 'u' :: hex4 (55296 + (c.toNat - 65536) / 1024) ++
          '\\' :: 'u' :: hex4 (56320 + (c.toNat - 65536) % 1024)) ++ rest
        = '\\' :: 'u' :: (hex4 (55296 + (c.toNat - 65536) / 1024) ++
            ('\\' :: 'u' :: (hex4 (56320 + (c.toNat - 65536) % 1024) ++ rest)))
        from by simp,
      decodeStep_backslash, escStep_u]
    rw [show hexStep (hex4 (55296 + (c.toNat - 65536) / 1024) ++
          ('\\' :: 'u' :: (hex4 (56320 + (c.toNat - 65536) % 1024) ++ rest)))
        = some (Char.ofNat (65536 + ((55296 + (c.toNat - 65536) / 1024) - 55296) * 1024 +
            ((56320 + (c.toNat - 65536) % 1024) - 56320)), rest)
      from @hexStep_astral (55296 + (c.toNat - 65536) / 1024)
        (56320 + (c.toNat - 65536) % 1024) rest (by omega) (by omega), Option.map_some']
    have harith : 65536 + ((55296 + (c.toNat - 65536) / 1024) - 55296) * 1024 +
        ((56320 + (c.toNat - 65536) % 1024) - 56320) = c.toNat := by omega
    rw [harith, Char.ofNat_toNat]

end Apollo.Output

namespace Apollo.Output

lemma decodeBody_encode : ∀ (s : Label) (tail : List Char),
    decodeBody (s.flatMap encodeChar ++ '"' :: tail) = some (s, tail)
  | [], tail => by
    rw [List.flatMap_nil, List.nil_append]
    exact decodeBody_inl rfl
  | c :: s, tail => by
    rw [List.flatMap_cons, List.append_assoc]
    rw [decodeBody_inr (decodeStep_encodeChar c (s.flatMap encodeChar ++ '"' :: tail))]
    rw [decodeBody_encode s tail]
    rfl

lemma decodeString_jsonString (s : Label) (tail : List Char) :
    decodeString (jsonString s ++ tail) = some (s, tail) := by
  rw [show jsonString s ++ tail = '"' :: (s.flatMap encodeChar ++ '"' :: tail) from by
    simp [jsonString]]
  show decodeBody (s.flatMap encodeChar ++ '"' :: tail) = _
  exact decodeBody_encode s tail

lemma stripLeading_append : ∀ (ps cs : List Char), stripLeading ps (ps ++ cs) = some cs
  | [], cs => rfl
  | p :: ps, cs => by
    show stripLeading (p :: ps) (p :: (ps ++ cs)) = _
    simp only [stripLeading, if_pos rfl]
    exact stripLeading_append ps cs

lemma hexDigit_ne_newline : ∀ n < 16, ¬ hexDigit n = '\n' := by decide

lemma newline_not_mem_hex4 (n : ℕ) : '\n' ∉ hex4 n := by
  intro hm
  simp only [hex4, List.mem_cons, List.not_mem_nil, or_false] at hm
  rcases hm with e | e | e | e <;>
    exact hexDigit_ne_newline _ (Nat.mod_lt _ (by norm_num)) e.symm

lemma newline_not_mem_encodeChar (c : Char) : '\n' ∉ encodeChar c := by
  unfold encodeChar
  split_ifs with h1 h2 h3 h4 h5 h6 h7 h8 h9
  · decide
  · decide
  · decide
  · decide
  · decide
  · decide
  · decide
  · intro hm
    rw [List.mem_singleton] at hm
    rw [← hm] at h8
    exact absurd h8 (by decide)
  · intro hm
    simp only [List.cons_append, List.mem_cons] at hm
    rcases hm with e | e | e
    · exact absurd e (by decide)
    · exact absurd e (by decide)
    · exact newline_not_mem_hex4 _ (by simpa using e)
  · intro hm
    simp only [List.cons_append, List.mem_cons, List.mem_append] at hm
    rcases hm with e | e | e
    · exact absurd e (by decide)
    · exact absurd e (by decide)
    · rcases e with e | e
      · exact newline_not_mem_hex4 _ e
      · rcases e with e2 | e2 | e2
        · exact absurd e2 (by decide)
        · exact absurd e2 (by decide)
        · exact newline_not_mem_hex4 _ e2

lemma newline_not_mem_serializeRec (r : Rec) : '\n' ∉ serializeRec r := by
  obtain ⟨resp⟩ := r
  cases resp with
  | none => decide
  | some l =>
    intro hm
    simp only [serializeRec, jsonString, List.mem_append, List.cons_append,
      List.mem_cons, List.mem_flatMap] at hm
    rcases hm with (hpre | hval) | hclose
    · exact absurd hpre (by decide)
    · rcases hval with e | e
      · exact absurd e (by decide)
      · rcases e with ⟨x, _, hx⟩ | e
        · exact newline_not_mem_encodeChar x hx
        · exact absurd e (by decide)
    · exact absurd hclose (by decide)

lemma splitOnChar_newline_flat : ∀ (lines : List (List Char)),
    (∀ l ∈ lines, '\n' ∉ l) →
    splitOnChar '\n' ((lines.map fun l => l ++ ['\n']).flatten) = lines ++ [[]]
  | [], _ => rfl
  | l :: ls, h => by
    rw [List.map_cons, List.flatten_cons,
      show (l ++ ['\n']) ++ ((ls.map fun x => x ++ ['\n']).flatten)
        = l ++ '\n' :: ((ls.map fun x => x ++ ['\n']).flatten) from by simp]
    rw [splitOnChar_append_cons _ (h l (by simp)),
      splitOnChar_newline_flat ls (fun x hx => h x (by simp [hx]))]
    rfl

lemma parseRecLine_serializeRec (r : Rec) : parseRecLine (serializeRec r) = some r := by
  obtain ⟨resp⟩ := r
  cases resp with
  | none => rfl
  | some l =>
    have hser : serializeRec ⟨some l⟩
        = "\x7b\"response\": ".toList ++ (jsonString l ++ "\x7d".toList) := by
      simp [serializeRec]
    rw [hser]
    simp only [parseRecLine, stripLeading_append,
      show stripLeading "null\x7d".toList (jsonString l ++ "\x7d".toList) = none from rfl,
      decodeString_jsonString]
    rw [if_true]

lemma mapM_parseRecLine : ∀ (recs : List Rec),
    (recs.map serializeRec).mapM parseRecLine = some recs
  | [] => rfl
  | r :: rs => by
    rw [List.map_cons, List.mapM_cons, parseRecLine_serializeRec r, mapM_parseRecLine rs]
    rfl

end Apollo.Output

namespace Apollo.Output

/-- C9: `save_jsonl` writes exactly one compact JSON object per record —
each line newline-terminated and containing no interior newline, one per
record in sequence order — and the serialization round-trips: reading the
file back line by line and `json.loads`-ing each line recovers a sequence
identical in content and order to the original, for every record sequence
(in particular for any 5 weighted records). -/
theorem save_jsonl_roundtrip (recs : List Rec) :
    (∀ r ∈ recs, '\n' ∉ serializeRec r)
    ∧ save_jsonl recs = (recs.map fun r => serializeRec r ++ ['\n']).flatten
    ∧ load_jsonl (save_jsonl recs) = some recs := by
  refine ⟨fun r _ => newline_not_mem_serializeRec r, rfl, ?_⟩
  unfold load_jsonl save_jsonl
  rw [show (recs.map fun r => serializeRec r ++ ['\n'])
      = ((recs.map serializeRec).map fun l => l ++ ['\n']) from by
    rw [List.map_map]; rfl]
  rw [splitOnChar_newline_flat _ (fun l hl => by
    rcases List.mem_map.mp hl with ⟨r, _, rfl⟩
    exact newline_not_mem_serializeRec r)]
  show mapM parseRecLine
      (if (List.map serializeRec recs ++ [[]]).getLast? = some []
        then (List.map serializeRec recs ++ [[]]).dropLast
        else (List.map serializeRec recs ++ [[]])) = some recs
  rw [List.getLast?_concat, if_pos rfl, List.dropLast_concat]
  exact mapM_parseRecLine recs

end Apollo.Output

namespace Apollo.Output

/-- Witness for C9: five weighted records written as JSON-Lines and read
back deserialize to the same five records in order. -/
theorem save_jsonl_roundtrip_witness :
    load_jsonl (save_jsonl
      [⟨some "A".toList⟩, ⟨some "B".toList⟩, ⟨some "A".toList⟩,
       ⟨some "C".toList⟩, ⟨some "B".toList⟩])
      = some [⟨some "A".toList⟩, ⟨some "B".toList⟩, ⟨some "A".toList⟩,
       ⟨some "C".toList⟩, ⟨some "B".toList⟩] :=
  (save_jsonl_roundtrip
    [⟨some "A".toList⟩, ⟨some "B".toList⟩, ⟨some "A".toList⟩,
     ⟨some "C".toList⟩, ⟨some "B".toList⟩]).2.2

end Apollo.Output
